import Mathlib

/-!
Verification development for the Content-Assistant wizard steps
(src/components/content/steps/Step3Review.tsx and Step4Analysis.tsx).

Strings are embedded as `List Char`.  The JavaScript string operations the
steps rely on are embedded faithfully:

* `jsReplace` models `String.prototype.replace` called with a *string*
  pattern: it replaces only the FIRST occurrence of the pattern, and the
  replacement string is interpreted through ECMA-262 GetSubstitution
  (`$$`, `$&` and the dollar-backquote / dollar-quote escapes for the
  portions before and after the match; any other `$` sequence is literal,
  since a string pattern has no capture groups).
* `replaceAll` models a `String.prototype.replace` call with a global
  regex whose pattern is a literal string (used for the ellipsis cleanup
  regex in Step3Review); `splitOnPred` models `String.prototype.split`
  with a single-character-class regex; `jsTrim` models `trim`,
  `joinStrs` models `Array.prototype.join`.

Components that the two source files only reference (the wizard
controller in ContentWizard.tsx and the htmlToMarkdown collaborator) are
not part of the sources; where a claim needs them they are modelled from
the specification and marked as such in their doc comments.
-/

/-- Sentinel characters of the ECMA GetSubstitution escapes.  The
backquote and quote characters are written via their code points. -/
def dollarChar : Char := '$'

def backquoteChar : Char := Char.ofNat 96

def quoteChar : Char := Char.ofNat 39

/-- ECMA-262 GetSubstitution for a string pattern (no capture groups):
interpret the replacement string `rep` given the matched text, the part
of the subject before the match and the part after the match. -/
def getSubstitution (matched before after : List Char) : List Char → List Char
  | [] => []
  | [c] => [c]
  | c :: d :: rest2 =>
    if c = dollarChar then
      if d = dollarChar then d :: getSubstitution matched before after rest2
      else if d = '&' then matched ++ getSubstitution matched before after rest2
      else if d = backquoteChar then before ++ getSubstitution matched before after rest2
      else if d = quoteChar then after ++ getSubstitution matched before after rest2
      else c :: getSubstitution matched before after (d :: rest2)
    else c :: getSubstitution matched before after (d :: rest2)

/-- Index of the first occurrence of `pat` in the subject (the position
`String.prototype.indexOf` would report), `none` when there is none. -/
def firstOccIdx (pat : List Char) : List Char → Option Nat
  | [] => if List.isPrefixOf pat [] then some 0 else none
  | c :: cs =>
    if List.isPrefixOf pat (c :: cs) then some 0
    else (firstOccIdx pat cs).map (· + 1)

/-- JavaScript `subject.replace(pat, rep)` with a string pattern `pat`:
only the first occurrence of `pat` is replaced, and `rep` is interpreted
through `getSubstitution`.  When `pat` does not occur, the subject is
returned unchanged. -/
def jsReplace (pat rep s : List Char) : List Char :=
  match firstOccIdx pat s with
  | none => s
  | some i =>
    s.take i ++ getSubstitution pat (s.take i) (s.drop (i + pat.length)) rep
      ++ s.drop (i + pat.length)

/-- First-occurrence replacement without the GetSubstitution step; it
agrees with `jsReplace` whenever the replacement contains no dollar
character (theorem `jsReplace_eq_plain`), and its structural recursion
makes the proofs about `jsReplace` tractable. -/
def replaceFirstPlain (pat rep : List Char) : List Char → List Char
  | [] => if List.isPrefixOf pat [] then rep else []
  | c :: cs =>
    if List.isPrefixOf pat (c :: cs) then rep ++ (c :: cs).drop pat.length
    else c :: replaceFirstPlain pat rep cs

/-- Fuelled scanner for global literal replacement; fuel at least the
length of the subject is always sufficient, and callers pass exactly
that. -/
def replaceAllGo (pat rep : List Char) : Nat → List Char → List Char
  | _, [] => []
  | 0, s => s
  | fuel + 1, c :: cs =>
    if pat ≠ [] ∧ List.isPrefixOf pat (c :: cs) then
      rep ++ replaceAllGo pat rep fuel ((c :: cs).drop pat.length)
    else c :: replaceAllGo pat rep fuel cs

/-- JavaScript `subject.replace(regex-g, rep)` where the regex matches the
literal string `pat`: every non-overlapping occurrence is replaced,
scanning left to right. -/
def replaceAll (pat rep s : List Char) : List Char :=
  replaceAllGo pat rep s.length s

/-- Fuelled scanner counting non-overlapping occurrences left to right. -/
def countOccGo (pat : List Char) : Nat → List Char → Nat
  | _, [] => 0
  | 0, _ => 0
  | fuel + 1, c :: cs =>
    if pat ≠ [] ∧ List.isPrefixOf pat (c :: cs) then
      1 + countOccGo pat fuel ((c :: cs).drop pat.length)
    else countOccGo pat fuel cs

/-- Number of non-overlapping occurrences of `pat` in `s`, counted left
to right the way a global regex scan would find them. -/
def countOcc (pat s : List Char) : Nat := countOccGo pat s.length s

/-- JavaScript `String.prototype.split` with a regex that is a single
character class: cut the subject at every separator character, keeping
empty segments. -/
def splitOnPred (p : Char → Bool) : List Char → List (List Char)
  | [] => [[]]
  | c :: cs =>
    if p c then [] :: splitOnPred p cs
    else
      match splitOnPred p cs with
      | [] => [[c]]
      | w :: ws => (c :: w) :: ws

/-- Whitespace recognised by the embedding of `String.prototype.trim`. -/
def isJsSpace (c : Char) : Bool :=
  c = ' ' || c = '\t' || c = '\n' || c = '\r'

/-- JavaScript `String.prototype.trim`. -/
def jsTrim (s : List Char) : List Char :=
  ((s.dropWhile isJsSpace).reverse.dropWhile isJsSpace).reverse

/-- JavaScript `Array.prototype.join(sep)` over strings. -/
def joinStrs (sep : List Char) : List (List Char) → List Char
  | [] => []
  | [x] => x
  | x :: xs => x ++ sep ++ joinStrs sep xs

/-- JavaScript truthiness of a string: every string except the empty one
is truthy. -/
def strTruthy (s : List Char) : Bool := !s.isEmpty

/-- JavaScript `a || b` on strings. -/
def jsOr (a b : List Char) : List Char := if strTruthy a then a else b

/-- JavaScript truthiness of a possibly-undefined string field. -/
def optTruthy : Option (List Char) → Bool
  | none => false
  | some s => strTruthy s

/-- Value of a possibly-undefined string field, defaulting to empty. -/
def optStr : Option (List Char) → List Char
  | none => []
  | some s => s

/-- SearchResult record from src/types/search (shape as used by the two
step components): `content` is the optional field. -/
structure SearchResult where
  title : List Char
  url : List Char
  snippet : List Char
  content : Option (List Char)
  searchKeyword : List Char
deriving Repr, DecidableEq

/-- Modelled from the spec: the TemplateEngine contract
resolve(template, bindings) applies the bindings in the caller-given
order; each single substitution is the JavaScript replace call the step
components use (there is no separate TemplateEngine entity in the
sources, only chained `.replace` calls). -/
def resolve (t : List Char) (bindings : List (List Char × List Char)) : List Char :=
  bindings.foldl (fun acc b => jsReplace b.1 b.2 acc) t

namespace Step3Review

/-- Default analysis command of Step3Review.tsx (the template the user
edits; DEFAULT_PROMPT in the source). -/
def DEFAULT_PROMPT : String :=
  "This is research content about articles on [keyword]: [CONTENT]\n\nPlease analyze and provide:\n1. Common article structures\n2. Main and secondary sections\n3. Key points mentioned\n4. Unique perspectives from each article\n5. Strengths/weaknesses of each article\n6. Opportunities for differentiation\n7. Content type (choose 1): Pillar Content/Supporting Content/Informational Content/Commercial Content/Engagement Content/News/Updates"

/-- Title separators of the split regex in handleProcess: hyphen, en
dash, em dash, colon. -/
def isTitleSep (c : Char) : Bool :=
  c = '-' || c = Char.ofNat 0x2013 || c = Char.ofNat 0x2014 || c = ':'

/-- Key points extracted from a result title in handleProcess: split on
the separators, trim, and keep only segments longer than ten
characters. -/
def titlePoints (title : List Char) : List (List Char) :=
  ((splitOnPred isTitleSep title).map jsTrim).filter (fun p => p.length > 10)

/-- Sentence separators of the snippet split regex in handleProcess. -/
def isSentenceSep (c : Char) : Bool := c = '.' || c = '!' || c = '?'

/-- Snippet cleanup in handleProcess: collapse ellipses to periods,
split into sentences, trim, drop empties, rejoin. -/
def cleanSnippet (snippet : List Char) : List Char :=
  joinStrs ". ".data
    (((splitOnPred isSentenceSep (replaceAll "...".data ".".data snippet)).map
        jsTrim).filter (fun s => s.length > 0))

/-- One formatted block of the handleProcess content mapper. -/
def resultBlock (r : SearchResult) : List Char :=
  "# ".data ++ r.title ++ "\n\nSource: ".data ++ r.url
    ++ "\n\nKey Points:\n".data
    ++ joinStrs "\n".data ((titlePoints r.title).map (fun p => "- ".data ++ p))
    ++ "\n\nSummary:\n".data ++ cleanSnippet r.snippet ++ "\n\n---\n".data

/-- The research content built by handleProcess: one block per result,
in input order, joined with a newline. -/
def researchContent (results : List SearchResult) : List Char :=
  joinStrs "\n".data (results.map resultBlock)

/-- handleProcess of Step3Review.tsx as a function of its inputs: the
early return on an empty result list yields `none` (onNext is not
invoked); otherwise `some` of the (analysis, keyword, research) triple
passed to onNext.  The analysis prompt is the user-edited prompt with
the replace call applied to the [CONTENT] token. -/
def handleProcess (results : List SearchResult) (prompt : List Char) :
    Option (List Char × List Char × List Char) :=
  if results.length = 0 then none
  else
    let content := researchContent results
    let keyword := optStr (results.head?.map SearchResult.searchKeyword)
    let researchPrompt := jsReplace "[CONTENT]".data content prompt
    some (researchPrompt, keyword, content)

end Step3Review

namespace Step4Analysis

/-- Default analysis command of Step4Analysis.tsx (DEFAULT_PROMPT in the
source). -/
def DEFAULT_PROMPT : String :=
  "Based on the following research content about \"[KEYWORD]\", analyze the characteristics of the content writers. Detail the writing style to guide others in writing similarly on this topic.\n\nInclude analysis of:\n1. Tone and voice (formal, conversational, technical)\n2. Sentence structure and length\n3. Vocabulary level and specialized terminology usage\n4. Paragraph organization and flow\n5. Use of questions, commands, or other engagement techniques\n6. Content formatting patterns (lists, headers, quotes)\n7. Overall readability and target audience level\n\nResearch content:\n[CONTENT]"

/-- Part of DEFAULT_PROMPT before the [KEYWORD] token. -/
def promptPart1 : String := "Based on the following research content about \""

/-- Part of DEFAULT_PROMPT between the [KEYWORD] token and the
trailing [CONTENT] token. -/
def promptPart2 : String :=
  "\", analyze the characteristics of the content writers. Detail the writing style to guide others in writing similarly on this topic.\n\nInclude analysis of:\n1. Tone and voice (formal, conversational, technical)\n2. Sentence structure and length\n3. Vocabulary level and specialized terminology usage\n4. Paragraph organization and flow\n5. Use of questions, commands, or other engagement techniques\n6. Content formatting patterns (lists, headers, quotes)\n7. Overall readability and target audience level\n\nResearch content:\n"

/-- initializedPrompt of Step4Analysis.tsx: the default prompt with the
keyword substituted by one replace call and then the research content
substituted by a second replace call, in that order. -/
def initializedPrompt (keyword researchContent : List Char) : List Char :=
  jsReplace "[CONTENT]".data researchContent
    (jsReplace "[KEYWORD]".data keyword DEFAULT_PROMPT.data)

/-- Fixed text stored by the stubbed generation call on success. -/
def analysisPlaceholder : List Char :=
  "The AI analysis will appear here after generation is complete.".data

/-- Local state of the Step4Analysis component (the useState fields the
generation and forward handlers read and write). -/
structure Step4State where
  analysisResult : List Char
  isGenerating : Bool
  isProcessing : Bool
  showResults : Bool
deriving Repr, DecidableEq

/-- generateStyleAnalysis of Step4Analysis.tsx.  The awaited call is a
stub; its outcome (success, or a simulated/real transport failure) is a
parameter.  On success the fixed placeholder text is stored and the
results pane is shown; on failure the error is logged (second component
of the pair) and nothing else changes; the finally block clears the
busy flag in both cases.  The function never invokes the forward
callback. -/
def generateStyleAnalysis (outcome : Except Unit Unit) (s : Step4State) :
    Step4State × Bool :=
  match outcome with
  | Except.ok _ =>
    ({ s with analysisResult := analysisPlaceholder, showResults := true,
              isGenerating := false }, false)
  | Except.error _ =>
    ({ s with isGenerating := false }, true)

/-- handleProcess of Step4Analysis.tsx: capture the closure value of
analysisResult, run generateStyleAnalysis when no result is stored and
no generation is in flight, then invoke onNext with the captured value
(the closure still holds the value from the start of the handler).  The
second component is the argument passed to onNext. -/
def handleProcess (outcome : Except Unit Unit) (s : Step4State) :
    Step4State × Option (List Char) :=
  let captured := s.analysisResult
  let s1 : Step4State := { s with isProcessing := true }
  let s2 :=
    if captured.isEmpty && !s.isGenerating then (generateStyleAnalysis outcome s1).1
    else s1
  ({ s2 with isProcessing := false }, some captured)

end Step4Analysis

namespace Step3ReviewV2

/-- Content selection of the second Step3Review variant (the formatter
in Step4Analysis.tsx after the document separator, lines 426 and
following): prefer the html-to-markdown conversion of a truthy content
field, else the snippet, else the literal fallback text.  The
htmlToMarkdown collaborator lives in src/lib/search and is a parameter
here; the source guards `typeof htmlToMarkdown === "function"`, which
holds for an imported function. -/
def markdownContent (h2m : List Char → List Char) (r : SearchResult) : List Char :=
  match r.content with
  | some c => if strTruthy c then h2m c else jsOr r.snippet "No content available".data
  | none => jsOr r.snippet "No content available".data

/-- One formatted block of the second variant. -/
def resultBlock (h2m : List Char → List Char) (r : SearchResult) : List Char :=
  "# ".data ++ r.title ++ "\n\nSource: ".data ++ r.url
    ++ "\n\n## Summary\n".data ++ jsOr r.snippet "No summary available".data
    ++ "\n\n## Full Content\n".data ++ markdownContent h2m r
    ++ "\n\n---\n".data

/-- Research content of the second variant: one block per result, in
input order, joined with a newline. -/
def researchContent (h2m : List Char → List Char)
    (results : List SearchResult) : List Char :=
  joinStrs "\n".data (results.map (resultBlock h2m))

/-- handleProcess of the second Step3Review variant as a function of its
inputs: early return on an empty result list, otherwise the
(finalPrompt, finalKeyword, processedContent) triple that handleContinue
later hands to onNext. -/
def handleProcess (h2m : List Char → List Char) (results : List SearchResult)
    (prompt : List Char) : Option (List Char × List Char × List Char) :=
  if results.length = 0 then none
  else
    let content := researchContent h2m results
    let keyword := optStr (results.head?.map SearchResult.searchKeyword)
    let generatedPrompt := jsReplace "[CONTENT]".data content prompt
    some (generatedPrompt, keyword, content)

end Step3ReviewV2

/-- Modelled from the spec: the linear step sequence of the
WizardController (ContentWizard.tsx is not among the sources). -/
inductive WizardStep where
  | config
  | search
  | review
  | analysis
  | done
deriving Repr, DecidableEq

/-- Modelled from the spec: the WizardContext record threaded forward by
the controller. -/
structure WizardContext where
  modelConfig : List Char
  keyword : List Char
  searchResults : List SearchResult
  researchText : List Char
  analysisPrompt : List Char
  analysisResult : List Char
deriving Repr, DecidableEq

/-- Modelled from the spec: the output a step hands to the controller
when it completes forward. -/
inductive StepOutput where
  | configOutput (modelConfig : List Char)
  | searchOutput (keyword : List Char) (results : List SearchResult)
  | reviewOutput (analysisPrompt keyword researchText : List Char)
  | analysisOutput (analysisResult : List Char)
deriving Repr, DecidableEq

/-- Modelled from the spec: the error kinds of the error-handling
design. -/
inductive WizardError where
  | missingPrerequisite
  | generationFailed
  | exportFailed
deriving Repr, DecidableEq

/-- Modelled from the spec: the controller state: active step pointer,
the WizardContext, and the per-step editable prompt of the Review step
(its StepState), which the controller keeps across navigation. -/
structure WizardState where
  step : WizardStep
  ctx : WizardContext
  reviewPrompt : List Char
deriving Repr, DecidableEq

/-- Modelled from the spec: successor of a step in the linear order. -/
def nextStep : WizardStep → WizardStep
  | WizardStep.config => WizardStep.search
  | WizardStep.search => WizardStep.review
  | WizardStep.review => WizardStep.analysis
  | WizardStep.analysis => WizardStep.done
  | WizardStep.done => WizardStep.done

/-- Modelled from the spec: predecessor of a step in the linear order. -/
def prevStep : WizardStep → WizardStep
  | WizardStep.config => WizardStep.config
  | WizardStep.search => WizardStep.config
  | WizardStep.review => WizardStep.search
  | WizardStep.analysis => WizardStep.review
  | WizardStep.done => WizardStep.analysis

/-- Modelled from the spec: merging a step output into the context;
each output writes its own fields and leaves the others unchanged. -/
def mergeOutput (ctx : WizardContext) : StepOutput → WizardContext
  | StepOutput.configOutput mc => { ctx with modelConfig := mc }
  | StepOutput.searchOutput kw rs => { ctx with keyword := kw, searchResults := rs }
  | StepOutput.reviewOutput ap kw rt =>
    { ctx with analysisPrompt := ap, keyword := kw, researchText := rt }
  | StepOutput.analysisOutput ar => { ctx with analysisResult := ar }

/-- Modelled from the spec: the prerequisite a step needs before it may
become active; the Review step requires a non-empty searchResults
sequence. -/
def stepPrereq : WizardStep → WizardContext → Bool
  | WizardStep.review, ctx => !ctx.searchResults.isEmpty
  | _, _ => true

/-- Modelled from the spec: advance(step, output) validates the
prerequisite of the next step against the merged context; on success it
merges the output and moves the pointer forward, otherwise it fails
with MissingPrerequisite and commits nothing.  The function is total,
so a failed advance cannot crash the wizard. -/
def advance (s : WizardState) (o : StepOutput) : Except WizardError WizardState :=
  let ctx2 := mergeOutput s.ctx o
  if stepPrereq (nextStep s.step) ctx2 then
    Except.ok { s with step := nextStep s.step, ctx := ctx2 }
  else Except.error WizardError.missingPrerequisite

/-- Modelled from the spec: the state the UI shows after an advance
attempt: the new state on success, the unchanged current state on
failure. -/
def advanceUI (s : WizardState) (o : StepOutput) : WizardState :=
  match advance s o with
  | Except.ok s2 => s2
  | Except.error _ => s

/-- Modelled from the spec: back() moves the pointer to the previous
step and discards nothing. -/
def back (s : WizardState) : WizardState := { s with step := prevStep s.step }

/-- Modelled from the spec: the user edits the Review step prompt; the
edited value replaces the stored StepState value. -/
def editReviewPrompt (s : WizardState) (p : List Char) : WizardState :=
  { s with reviewPrompt := p }

/-- Bool-level prefix test agrees with the prefix relation. -/
theorem isPrefixOf_eq_true_iff {l1 l2 : List Char} :
    l1.isPrefixOf l2 = true ↔ l1 <+: l2 := List.isPrefixOf_iff_prefix

/-- A prefix is in particular an infix. -/
theorem inf_of_pref {l1 l2 : List Char} (h : l1 <+: l2) : l1 <:+: l2 := by
  obtain ⟨t, ht⟩ := h
  exact ⟨[], t, by simp [ht]⟩

/-- An infix of a list is an infix of any left extension. -/
theorem inf_ext_left {l t : List Char} (s : List Char) (h : l <:+: t) :
    l <:+: s ++ t := by
  obtain ⟨u, v, huv⟩ := h
  exact ⟨s ++ u, v, by rw [← huv]; simp [List.append_assoc]⟩

/-- GetSubstitution is the identity on replacement strings without a
dollar character. -/
theorem getSub_no_dollar (m b a : List Char) :
    ∀ rep : List Char, dollarChar ∉ rep → getSubstitution m b a rep = rep
  | [], _ => rfl
  | [c], _ => rfl
  | c :: d :: rest2, h => by
    have hc : ¬ c = dollarChar := fun hh => h (by rw [hh]; exact List.mem_cons_self ..)
    have hrest : dollarChar ∉ d :: rest2 := fun hm => h (List.mem_cons_of_mem c hm)
    simp only [getSubstitution, if_neg hc]
    rw [getSub_no_dollar m b a (d :: rest2) hrest]

/-- No occurrence of the pattern means the scanner reports none. -/
theorem firstOccIdx_none_of_not_inf (pat s : List Char) (h : ¬ pat <:+: s) :
    firstOccIdx pat s = none := by
  induction s with
  | nil =>
    have hne : pat ≠ [] := fun hp => h (by subst hp; exact ⟨[], [], rfl⟩)
    have : ¬ List.isPrefixOf pat ([] : List Char) = true := by
      intro hb
      exact hne (List.prefix_nil.mp (isPrefixOf_eq_true_iff.mp hb))
    simp [firstOccIdx, this]
  | cons c cs ih =>
    have hp : ¬ List.isPrefixOf pat (c :: cs) = true := by
      intro hb
      exact h (inf_of_pref (isPrefixOf_eq_true_iff.mp hb))
    have hcs : ¬ pat <:+: cs := fun hin => h (List.infix_cons hin)
    simp [firstOccIdx, hp, ih hcs]

/-- A replace call whose pattern does not occur returns the subject
unchanged. -/
theorem jsReplace_nomatch (pat rep s : List Char) (h : ¬ pat <:+: s) :
    jsReplace pat rep s = s := by
  unfold jsReplace
  rw [firstOccIdx_none_of_not_inf pat s h]

/-- When the scanner reports no occurrence, the plain first-occurrence
replacement is the identity. -/
theorem plain_of_idx_none (pat rep : List Char) :
    ∀ s, firstOccIdx pat s = none → replaceFirstPlain pat rep s = s := by
  intro s
  induction s with
  | nil =>
    intro h
    by_cases hp : List.isPrefixOf pat ([] : List Char) = true
    · simp [firstOccIdx, hp] at h
    · simp [replaceFirstPlain, hp]
  | cons c cs ih =>
    intro h
    by_cases hp : List.isPrefixOf pat (c :: cs) = true
    · simp [firstOccIdx, hp] at h
    · have hcs : firstOccIdx pat cs = none := by
        by_contra hne
        obtain ⟨j, hj⟩ := Option.ne_none_iff_exists'.mp hne
        simp [firstOccIdx, hp, hj] at h
      simp [replaceFirstPlain, hp, ih hcs]

/-- The full JavaScript replace agrees with the plain first-occurrence
replacement whenever the replacement string has no dollar character. -/
theorem jsReplace_eq_plain (pat rep : List Char) (hrep : dollarChar ∉ rep) :
    ∀ s, jsReplace pat rep s = replaceFirstPlain pat rep s := by
  intro s
  induction s with
  | nil =>
    by_cases hp : List.isPrefixOf pat ([] : List Char) = true
    · simp [jsReplace, firstOccIdx, hp, replaceFirstPlain,
        getSub_no_dollar _ _ _ rep hrep]
    · simp [jsReplace, firstOccIdx, hp, replaceFirstPlain]
  | cons c cs ih =>
    by_cases hp : List.isPrefixOf pat (c :: cs) = true
    · simp [jsReplace, firstOccIdx, hp, replaceFirstPlain,
        getSub_no_dollar _ _ _ rep hrep]
    · cases hfo : firstOccIdx pat cs with
      | none =>
        have hplain : replaceFirstPlain pat rep cs = cs := plain_of_idx_none pat rep cs hfo
        simp [jsReplace, firstOccIdx, hp, hfo, replaceFirstPlain, hplain]
      | some j =>
        have hfo2 : firstOccIdx pat (c :: cs) = some (j + 1) := by
          simp [firstOccIdx, hp, hfo]
        have hcs : jsReplace pat rep cs
            = cs.take j ++ getSubstitution pat (cs.take j) (cs.drop (j + pat.length)) rep
              ++ cs.drop (j + pat.length) := by
          unfold jsReplace
          rw [hfo]
        have hc2 : jsReplace pat rep (c :: cs)
            = (c :: cs).take (j + 1)
              ++ getSubstitution pat ((c :: cs).take (j + 1))
                  ((c :: cs).drop (j + 1 + pat.length)) rep
              ++ (c :: cs).drop (j + 1 + pat.length) := by
          unfold jsReplace
          rw [hfo2]
        have ih2 : cs.take j ++ rep ++ cs.drop (j + pat.length)
            = replaceFirstPlain pat rep cs := by
          rw [← ih, hcs, getSub_no_dollar _ _ _ rep hrep]
        rw [hc2, getSub_no_dollar _ _ _ rep hrep]
        have h3 : replaceFirstPlain pat rep (c :: cs)
            = c :: replaceFirstPlain pat rep cs := by
          simp [replaceFirstPlain, hp]
        rw [h3, ← ih2, List.take_succ_cons]
        have h4 : j + 1 + pat.length = (j + pat.length) + 1 := by omega
        rw [h4, List.drop_succ_cons]
        simp

/-- Plain first-occurrence replacement skips over a region that does not
contain the head character of the (non-empty) pattern. -/
theorem plain_skip (ph : Char) (pt rep b : List Char) :
    ∀ a : List Char, ph ∉ a →
      replaceFirstPlain (ph :: pt) rep (a ++ b) = a ++ replaceFirstPlain (ph :: pt) rep b := by
  intro a
  induction a with
  | nil => intro _; simp
  | cons c a2 ih =>
    intro ha
    have hc : ¬ ph = c := fun hh => ha (by rw [hh]; exact List.mem_cons_self ..)
    have hp : ¬ List.isPrefixOf (ph :: pt) (c :: (a2 ++ b)) = true := by
      intro hb
      obtain ⟨t, ht⟩ := isPrefixOf_eq_true_iff.mp hb
      have h1 : ph = c := by
        have hh := congrArg (fun l => l.head?) ht
        simpa using hh
      exact hc h1
    show replaceFirstPlain (ph :: pt) rep (c :: (a2 ++ b)) = _
    simp only [replaceFirstPlain, if_neg hp]
    rw [ih (fun hm => ha (List.mem_cons_of_mem c hm))]
    rfl

/-- Plain first-occurrence replacement on a subject that starts with the
pattern replaces that leading occurrence. -/
theorem plain_pref (rep t : List Char) :
    ∀ pat : List Char, replaceFirstPlain pat rep (pat ++ t) = rep ++ t := by
  intro pat
  cases pat with
  | nil =>
    cases t with
    | nil => simp [replaceFirstPlain, List.isPrefixOf]
    | cons c cs => simp [replaceFirstPlain, List.isPrefixOf]
  | cons q qt =>
    have hp : List.isPrefixOf (q :: qt) (q :: (qt ++ t)) = true :=
      isPrefixOf_eq_true_iff.mpr (by exact List.prefix_append (q :: qt) t)
    show replaceFirstPlain (q :: qt) rep (q :: (qt ++ t)) = rep ++ t
    simp only [replaceFirstPlain]
    rw [if_pos hp]
    congr 1
    exact List.drop_left (q :: qt) t

/-- Plain first-occurrence replacement replaces exactly the occurrence
at the split position when no occurrence starts earlier. -/
theorem plain_first (pat rep : List Char) :
    ∀ (p s : List Char),
      (∀ i, i < p.length → ¬ pat <+: (p ++ pat ++ s).drop i) →
      replaceFirstPlain pat rep (p ++ pat ++ s) = p ++ rep ++ s := by
  intro p
  induction p with
  | nil =>
    intro s _
    simpa using plain_pref rep s pat
  | cons c p2 ih =>
    intro s h
    have h0 : ¬ pat <+: ((c :: p2) ++ pat ++ s) := by
      have := h 0 (by simp)
      simpa using this
    have hp : ¬ List.isPrefixOf pat (c :: (p2 ++ pat ++ s)) = true := by
      intro hb
      exact h0 (by simpa using isPrefixOf_eq_true_iff.mp hb)
    show replaceFirstPlain pat rep (c :: (p2 ++ pat ++ s)) = _
    simp only [replaceFirstPlain, if_neg hp]
    rw [ih s ?_]
    · rfl
    · intro i hi
      have := h (i + 1) (by simpa using Nat.succ_lt_succ hi)
      simpa using this

/-- Array join on a cons cell. -/
theorem joinStrs_cons (sep x : List Char) (xs : List (List Char)) :
    joinStrs sep (x :: xs)
      = x ++ (if xs.isEmpty then [] else sep ++ joinStrs sep xs) := by
  cases xs with
  | nil => simp [joinStrs]
  | cons y ys => simp [joinStrs, List.append_assoc]

/-- Every element of a joined list is an infix of the join. -/
theorem get_inf_joinStrs (sep : List Char) :
    ∀ (xs : List (List Char)) (i : Fin xs.length), xs.get i <:+: joinStrs sep xs := by
  intro xs
  induction xs with
  | nil => intro i; exact absurd i.2 (by simp)
  | cons x xs ih =>
    intro i
    induction i using Fin.cases with
    | zero =>
      rw [joinStrs_cons]
      exact ⟨[], _, rfl⟩
    | succ j =>
      cases xs with
      | nil => exact absurd j.2 (by simp)
      | cons y ys =>
        have hrec := ih j
        have hstep : joinStrs sep (x :: y :: ys)
            = x ++ (sep ++ joinStrs sep (y :: ys)) :=
          List.append_assoc x sep (joinStrs sep (y :: ys))
        show (y :: ys).get j <:+: joinStrs sep (x :: y :: ys)
        rw [hstep]
        exact inf_ext_left x (inf_ext_left sep hrec)

/-- The markdown content of a block of the second formatter variant is
an infix of the whole block. -/
theorem md_inf_block (h2m : List Char → List Char) (r : SearchResult) :
    Step3ReviewV2.markdownContent h2m r <:+: Step3ReviewV2.resultBlock h2m r := by
  refine ⟨"# ".data ++ r.title ++ "\n\nSource: ".data ++ r.url
    ++ "\n\n## Summary\n".data ++ jsOr r.snippet "No summary available".data
    ++ "\n\n## Full Content\n".data, "\n\n---\n".data, ?_⟩
  simp [Step3ReviewV2.resultBlock, List.append_assoc]

/-- Variant of plain_skip taking the pattern head through a head?
hypothesis, which concrete string literals discharge by decide. -/
theorem plain_skip2 (pat rep b : List Char) (ph : Char) (hh : pat.head? = some ph) :
    ∀ a : List Char, ph ∉ a →
      replaceFirstPlain pat rep (a ++ b) = a ++ replaceFirstPlain pat rep b := by
  cases pat with
  | nil => simp at hh
  | cons q qt =>
    have : q = ph := by simpa using hh
    subst this
    exact plain_skip q qt rep b

set_option maxRecDepth 4000 in
/-- Decomposition of the Step4 default prompt around its two
placeholder tokens. -/
theorem step4_prompt_decomp :
    Step4Analysis.DEFAULT_PROMPT.data
      = Step4Analysis.promptPart1.data
        ++ ("[KEYWORD]".data
            ++ (Step4Analysis.promptPart2.data ++ "[CONTENT]".data)) := by
  decide

/-- C1 (amended).  Resolving a template replaces only the FIRST literal
occurrence of the placeholder, leaving the rest of the template (and in
particular every later occurrence) unchanged: when the template splits
as p ++ placeholder ++ s with no occurrence of the placeholder starting
inside p, and the value contains no dollar character, the output is
exactly p ++ value ++ s.  The all-occurrences / exact-count form of the
claim is refuted by substitution_all_occurrences_counterexample. -/
theorem resolve_first_occurrence_only
    (placeholder value p s : List Char)
    (hfirst : ∀ i, i < p.length → ¬ placeholder <+: (p ++ placeholder ++ s).drop i)
    (hval : dollarChar ∉ value) :
    resolve (p ++ placeholder ++ s) [(placeholder, value)] = p ++ value ++ s := by
  show jsReplace placeholder value (p ++ placeholder ++ s) = p ++ value ++ s
  rw [jsReplace_eq_plain _ _ hval]
  exact plain_first placeholder value p s hfirst

/-- Witness for resolve_first_occurrence_only at a concrete template
with a second, surviving occurrence of the placeholder. -/
theorem resolve_first_occurrence_only_witness :
    ((∀ i, i < ("A ".data : List Char).length →
        ¬ "[CONTENT]".data <+:
            (("A ".data ++ "[CONTENT]".data ++ " B [CONTENT]".data).drop i))
      ∧ dollarChar ∉ "x".data)
    ∧ resolve ("A ".data ++ "[CONTENT]".data ++ " B [CONTENT]".data)
        [("[CONTENT]".data, "x".data)]
      = "A ".data ++ "x".data ++ " B [CONTENT]".data :=
  ⟨⟨by decide, by decide⟩,
    resolve_first_occurrence_only "[CONTENT]".data "x".data "A ".data
      " B [CONTENT]".data (by decide) (by decide)⟩

/-- C1 counterexample.  A template holding two occurrences of the
placeholder [CONTENT] and a value with zero occurrences of it: the
resolved output keeps one occurrence of the placeholder instead of the
zero occurrences the claim demands, because the JavaScript replace call
the steps use rewrites only the first occurrence. -/
theorem substitution_all_occurrences_counterexample :
    countOcc "[CONTENT]".data "[CONTENT] [CONTENT]".data = 2
    ∧ countOcc "[CONTENT]".data "x".data = 0
    ∧ resolve "[CONTENT] [CONTENT]".data [("[CONTENT]".data, "x".data)]
      = "x [CONTENT]".data
    ∧ countOcc "[CONTENT]".data
        (resolve "[CONTENT] [CONTENT]".data [("[CONTENT]".data, "x".data)]) = 1 := by
  refine ⟨by decide, by decide, by decide, by decide⟩

set_option maxRecDepth 8000 in
/-- C2 (amended).  The Step4 initialized prompt inserts bound values
verbatim provided an earlier-inserted value does not contain (the
opening bracket of) the token of a later substitution and the values
contain no dollar character: the result is then exactly the prompt text
around the keyword and, at the end, the research content, so a
placeholder token inside the research content (the last substitution)
is inserted as-is and never resolved.  Without that proviso the claim
fails: each replace call re-scans the whole intermediate string, see
inserted_value_resolved_counterexample. -/
theorem initializedPrompt_inserts_verbatim (kw rc : List Char)
    (h1 : '[' ∉ kw) (h2 : dollarChar ∉ kw) (h3 : dollarChar ∉ rc) :
    Step4Analysis.initializedPrompt kw rc
      = Step4Analysis.promptPart1.data ++ kw
        ++ Step4Analysis.promptPart2.data ++ rc := by
  unfold Step4Analysis.initializedPrompt
  rw [jsReplace_eq_plain _ _ h2, jsReplace_eq_plain _ _ h3, step4_prompt_decomp]
  rw [plain_skip2 "[KEYWORD]".data kw _ '[' (by decide)
    Step4Analysis.promptPart1.data (by decide)]
  rw [plain_pref kw (Step4Analysis.promptPart2.data ++ "[CONTENT]".data) "[KEYWORD]".data]
  have hassoc : Step4Analysis.promptPart1.data
      ++ (kw ++ (Step4Analysis.promptPart2.data ++ "[CONTENT]".data))
      = (Step4Analysis.promptPart1.data ++ kw ++ Step4Analysis.promptPart2.data)
        ++ ("[CONTENT]".data ++ []) := by
    simp [List.append_assoc]
  rw [hassoc]
  rw [plain_skip2 "[CONTENT]".data rc ("[CONTENT]".data ++ []) '[' (by decide)
    (Step4Analysis.promptPart1.data ++ kw ++ Step4Analysis.promptPart2.data) ?hnotin]
  case hnotin =>
    intro hmem
    rcases List.mem_append.mp hmem with hmem1 | hmem2
    · rcases List.mem_append.mp hmem1 with hmem3 | hmem4
      · exact absurd hmem3 (by decide)
      · exact h1 hmem4
    · exact absurd hmem2 (by decide)
  rw [plain_pref rc [] "[CONTENT]".data]
  simp [List.append_assoc]

/-- Witness for initializedPrompt_inserts_verbatim: the research content
contains a [CONTENT] token and still appears verbatim at the end of the
initialized prompt. -/
theorem initializedPrompt_inserts_verbatim_witness :
    ('[' ∉ "seo tips".data ∧ dollarChar ∉ "seo tips".data
      ∧ dollarChar ∉ "body with [CONTENT] inside".data)
    ∧ Step4Analysis.initializedPrompt "seo tips".data
        "body with [CONTENT] inside".data
      = Step4Analysis.promptPart1.data ++ "seo tips".data
        ++ Step4Analysis.promptPart2.data ++ "body with [CONTENT] inside".data :=
  ⟨⟨by decide, by decide, by decide⟩,
    initializedPrompt_inserts_verbatim _ _ (by decide) (by decide) (by decide)⟩

set_option maxRecDepth 16000 in
/-- C2 counterexample.  With the keyword bound to the literal token
[CONTENT], the second replace call of the Step4 initialized prompt
resolves the token that the FIRST substitution inserted (the output
carries the research content R at the keyword position and the original
trailing [CONTENT] token survives), instead of leaving the inserted
token as-is as the claim demands. -/
theorem inserted_value_resolved_counterexample :
    Step4Analysis.initializedPrompt "[CONTENT]".data "R".data
      = Step4Analysis.promptPart1.data ++ "R".data
        ++ Step4Analysis.promptPart2.data ++ "[CONTENT]".data
    ∧ Step4Analysis.initializedPrompt "[CONTENT]".data "R".data
      ≠ Step4Analysis.promptPart1.data ++ "[CONTENT]".data
        ++ Step4Analysis.promptPart2.data ++ "R".data := by
  refine ⟨by decide, by decide⟩

/-- C8.  Resolving with the empty binding map returns the template
unchanged, and a placeholder with no occurrence in the template leaves
the subject verbatim (totality of the functions rules out an error). -/
theorem resolve_empty_and_unmatched_verbatim :
    (∀ t : List Char, resolve t [] = t)
    ∧ (∀ (t pat rep : List Char), ¬ pat <:+: t → jsReplace pat rep t = t) :=
  ⟨fun _ => rfl, fun t pat rep h => jsReplace_nomatch pat rep t h⟩

/-- Witness for resolve_empty_and_unmatched_verbatim on a concrete
template with a pending placeholder. -/
theorem resolve_empty_and_unmatched_verbatim_witness :
    resolve "hello [keyword]".data [] = "hello [keyword]".data
    ∧ (¬ "[CONTENT]".data <:+: "hello [keyword]".data)
    ∧ jsReplace "[CONTENT]".data "v".data "hello [keyword]".data
      = "hello [keyword]".data :=
  ⟨resolve_empty_and_unmatched_verbatim.1 _, by decide,
    resolve_empty_and_unmatched_verbatim.2 _ _ _ (by decide)⟩

/-- C9.  The research formatters are pure functions of the input
sequence: two invocations on equal inputs give equal (byte-identical)
outputs; the embedding has no time or ambient-state parameter because
the source computes the string from the results array alone. -/
theorem formatter_determinism_pure :
    (∀ (rs1 rs2 : List SearchResult), rs1 = rs2 →
        Step3Review.researchContent rs1 = Step3Review.researchContent rs2)
    ∧ (∀ (h2m : List Char → List Char) (rs1 rs2 : List SearchResult), rs1 = rs2 →
        Step3ReviewV2.researchContent h2m rs1 = Step3ReviewV2.researchContent h2m rs2) :=
  ⟨fun _ _ h => congrArg _ h, fun _ _ _ h => congrArg _ h⟩

/-- Witness for formatter_determinism_pure on a one-element input. -/
theorem formatter_determinism_pure_witness :
    Step3Review.researchContent [⟨"A".data, "u".data, "s".data, none, "k".data⟩]
      = Step3Review.researchContent [⟨"A".data, "u".data, "s".data, none, "k".data⟩] :=
  formatter_determinism_pure.1 _ _ rfl

/-- C6.  The body of a block of the markdown formatter comes from the
truthy content field run through the html-to-markdown collaborator,
else from a non-empty snippet, and when neither is present the block
contains the literal fallback text. -/
theorem block_content_preference_and_fallback
    (h2m : List Char → List Char) (r : SearchResult) :
    (∀ c, r.content = some c → strTruthy c = true →
        Step3ReviewV2.markdownContent h2m r = h2m c)
    ∧ (optTruthy r.content = false → strTruthy r.snippet = true →
        Step3ReviewV2.markdownContent h2m r = r.snippet)
    ∧ (optTruthy r.content = false → strTruthy r.snippet = false →
        "No content available".data <:+: Step3ReviewV2.resultBlock h2m r) := by
  refine ⟨?_, ?_, ?_⟩
  · intro c hc htr
    simp [Step3ReviewV2.markdownContent, hc, htr]
  · intro hct hsn
    cases hc : r.content with
    | none => simp [Step3ReviewV2.markdownContent, hc, jsOr, hsn]
    | some c =>
      have hcf : strTruthy c = false := by
        have hh := hct
        rw [hc] at hh
        simpa [optTruthy] using hh
      simp [Step3ReviewV2.markdownContent, hc, hcf, jsOr, hsn]
  · intro hct hsn
    have hmd : Step3ReviewV2.markdownContent h2m r = "No content available".data := by
      cases hc : r.content with
      | none => simp [Step3ReviewV2.markdownContent, hc, jsOr, hsn]
      | some c =>
        have hcf : strTruthy c = false := by
          have hh := hct
          rw [hc] at hh
          simpa [optTruthy] using hh
        simp [Step3ReviewV2.markdownContent, hc, hcf, jsOr, hsn]
    have hinf := md_inf_block h2m r
    rwa [hmd] at hinf

/-- Witness for block_content_preference_and_fallback: a result with
undefined content and empty snippet produces a block containing the
fallback text. -/
theorem block_content_preference_and_fallback_witness :
    (optTruthy (none : Option (List Char)) = false
      ∧ strTruthy ([] : List Char) = false)
    ∧ "No content available".data <:+:
        Step3ReviewV2.resultBlock (fun x => x)
          ⟨"T".data, "u".data, [], none, "k".data⟩ :=
  ⟨⟨rfl, rfl⟩,
    (block_content_preference_and_fallback (fun x => x)
      ⟨"T".data, "u".data, [], none, "k".data⟩).2.2 rfl rfl⟩

set_option maxRecDepth 8000 in
/-- C7.  Both research formatters emit one block per result in exactly
the input order: on a cons cell the output is the head block followed
(for a non-empty tail) by the newline join of the remaining blocks;
every block is an infix of the output; and on the concrete input
[Alpha one, Beta two, Gamma three] the heading of each title occurs at
the strictly increasing positions 0 < 57 < 113 (variant 1) and
0 < 65 < 129 (variant 2). -/
theorem formatter_order_preservation :
    (∀ (r : SearchResult) (rs : List SearchResult),
        Step3Review.researchContent (r :: rs)
          = Step3Review.resultBlock r
            ++ (if rs.isEmpty then [] else "\n".data ++ Step3Review.researchContent rs))
    ∧ (∀ (h2m : List Char → List Char) (r : SearchResult) (rs : List SearchResult),
        Step3ReviewV2.researchContent h2m (r :: rs)
          = Step3ReviewV2.resultBlock h2m r
            ++ (if rs.isEmpty then []
                else "\n".data ++ Step3ReviewV2.researchContent h2m rs))
    ∧ (∀ (rs : List SearchResult) (i : Fin rs.length),
        Step3Review.resultBlock (rs.get i) <:+: Step3Review.researchContent rs)
    ∧ (∀ (h2m : List Char → List Char) (rs : List SearchResult) (i : Fin rs.length),
        Step3ReviewV2.resultBlock h2m (rs.get i)
          <:+: Step3ReviewV2.researchContent h2m rs)
    ∧ (firstOccIdx "# Alpha one".data
        (Step3Review.researchContent
          [⟨"Alpha one".data, "u1".data, "sa".data, none, "k".data⟩,
           ⟨"Beta two".data, "u2".data, "sb".data, none, "k".data⟩,
           ⟨"Gamma three".data, "u3".data, "sc".data, none, "k".data⟩]) = some 0
      ∧ firstOccIdx "# Beta two".data
        (Step3Review.researchContent
          [⟨"Alpha one".data, "u1".data, "sa".data, none, "k".data⟩,
           ⟨"Beta two".data, "u2".data, "sb".data, none, "k".data⟩,
           ⟨"Gamma three".data, "u3".data, "sc".data, none, "k".data⟩]) = some 57
      ∧ firstOccIdx "# Gamma three".data
        (Step3Review.researchContent
          [⟨"Alpha one".data, "u1".data, "sa".data, none, "k".data⟩,
           ⟨"Beta two".data, "u2".data, "sb".data, none, "k".data⟩,
           ⟨"Gamma three".data, "u3".data, "sc".data, none, "k".data⟩]) = some 113
      ∧ firstOccIdx "# Alpha one".data
        (Step3ReviewV2.researchContent (fun x => x)
          [⟨"Alpha one".data, "u1".data, "sa".data, none, "k".data⟩,
           ⟨"Beta two".data, "u2".data, "sb".data, none, "k".data⟩,
           ⟨"Gamma three".data, "u3".data, "sc".data, none, "k".data⟩]) = some 0
      ∧ firstOccIdx "# Beta two".data
        (Step3ReviewV2.researchContent (fun x => x)
          [⟨"Alpha one".data, "u1".data, "sa".data, none, "k".data⟩,
           ⟨"Beta two".data, "u2".data, "sb".data, none, "k".data⟩,
           ⟨"Gamma three".data, "u3".data, "sc".data, none, "k".data⟩]) = some 65
      ∧ firstOccIdx "# Gamma three".data
        (Step3ReviewV2.researchContent (fun x => x)
          [⟨"Alpha one".data, "u1".data, "sa".data, none, "k".data⟩,
           ⟨"Beta two".data, "u2".data, "sb".data, none, "k".data⟩,
           ⟨"Gamma three".data, "u3".data, "sc".data, none, "k".data⟩]) = some 129) := by
  refine ⟨?_, ?_, ?_, ?_, by decide, by decide, by decide, by decide, by decide, by decide⟩
  · intro r rs
    unfold Step3Review.researchContent
    rw [List.map_cons, joinStrs_cons]
    cases rs <;> simp
  · intro h2m r rs
    unfold Step3ReviewV2.researchContent
    rw [List.map_cons, joinStrs_cons]
    cases rs <;> simp
  · intro rs i
    unfold Step3Review.researchContent
    have hlen : i.val < (rs.map Step3Review.resultBlock).length := by
      simp
    have hget : (rs.map Step3Review.resultBlock).get ⟨i.val, hlen⟩
        = Step3Review.resultBlock (rs.get i) := by
      simp
    have hinf := get_inf_joinStrs "\n".data (rs.map Step3Review.resultBlock) ⟨i.val, hlen⟩
    rwa [hget] at hinf
  · intro h2m rs i
    unfold Step3ReviewV2.researchContent
    have hlen : i.val < (rs.map (Step3ReviewV2.resultBlock h2m)).length := by
      simp
    have hget : (rs.map (Step3ReviewV2.resultBlock h2m)).get ⟨i.val, hlen⟩
        = Step3ReviewV2.resultBlock h2m (rs.get i) := by
      simp
    have hinf := get_inf_joinStrs "\n".data (rs.map (Step3ReviewV2.resultBlock h2m))
      ⟨i.val, hlen⟩
    rwa [hget] at hinf

set_option maxRecDepth 8000 in
/-- C3.  Back navigation preserves state: starting at Search, advancing
to Review, editing the Review prompt, going back and advancing forward
again shows the edited prompt (not the freshly-reset default), and the
back transition discards no WizardContext field.  The controller is
modelled from the spec because ContentWizard.tsx is not among the
sources. -/
theorem back_navigation_preserves_edited_prompt
    (s : WizardState) (kw p : List Char) (rs : List SearchResult)
    (hstep : s.step = WizardStep.search) (hrs : rs ≠ [])
    (hp : p ≠ Step3Review.DEFAULT_PROMPT.data) :
    let s1 := advanceUI s (StepOutput.searchOutput kw rs)
    let s2 := editReviewPrompt s1 p
    let s3 := back s2
    let s4 := advanceUI s3 (StepOutput.searchOutput kw rs)
    s3.ctx = s2.ctx ∧ s3.step = WizardStep.search ∧ s4.step = WizardStep.review
      ∧ s4.reviewPrompt = p
      ∧ s4.reviewPrompt ≠ Step3Review.DEFAULT_PROMPT.data := by
  cases rs with
  | nil => exact absurd rfl hrs
  | cons r rs2 =>
    simp [advanceUI, advance, mergeOutput, stepPrereq, nextStep, prevStep, back,
      editReviewPrompt, hstep, hp]

set_option maxRecDepth 8000 in
/-- Witness for back_navigation_preserves_edited_prompt at a concrete
run. -/
theorem back_navigation_preserves_edited_prompt_witness :
    (([⟨"A".data, "u".data, "s".data, none, "k".data⟩] : List SearchResult) ≠ []
      ∧ "edited".data ≠ Step3Review.DEFAULT_PROMPT.data)
    ∧ (let s1 := advanceUI ⟨WizardStep.search, ⟨[], [], [], [], [], []⟩, []⟩
          (StepOutput.searchOutput "k".data
            [⟨"A".data, "u".data, "s".data, none, "k".data⟩])
       let s2 := editReviewPrompt s1 "edited".data
       let s3 := back s2
       let s4 := advanceUI s3
          (StepOutput.searchOutput "k".data
            [⟨"A".data, "u".data, "s".data, none, "k".data⟩])
       s3.ctx = s2.ctx ∧ s3.step = WizardStep.search
         ∧ s4.step = WizardStep.review ∧ s4.reviewPrompt = "edited".data
         ∧ s4.reviewPrompt ≠ Step3Review.DEFAULT_PROMPT.data) :=
  ⟨⟨by decide, by decide⟩,
    back_navigation_preserves_edited_prompt _ _ _ _ rfl (by decide) (by decide)⟩

/-- C4.  Advancing into Review with an empty searchResults sequence
fails with MissingPrerequisite, the UI stays on the current state with
nothing merged, and the in-source guard of Step3Review.handleProcess
likewise refuses to act on an empty result list; everything is total,
so the refusal cannot crash.  The controller transition is modelled
from the spec because ContentWizard.tsx is not among the sources. -/
theorem advance_into_review_requires_results
    (s : WizardState) (kw prompt : List Char)
    (hstep : s.step = WizardStep.search) :
    advance s (StepOutput.searchOutput kw [])
      = Except.error WizardError.missingPrerequisite
    ∧ advanceUI s (StepOutput.searchOutput kw []) = s
    ∧ Step3Review.handleProcess [] prompt = none := by
  have h1 : advance s (StepOutput.searchOutput kw [])
      = Except.error WizardError.missingPrerequisite := by
    simp [advance, mergeOutput, stepPrereq, nextStep, hstep]
  exact ⟨h1, by simp [advanceUI, h1], rfl⟩

/-- Witness for advance_into_review_requires_results at a concrete
state. -/
theorem advance_into_review_requires_results_witness :
    advance ⟨WizardStep.search, ⟨[], [], [], [], [], []⟩, []⟩
        (StepOutput.searchOutput "k".data [])
      = Except.error WizardError.missingPrerequisite
    ∧ advanceUI ⟨WizardStep.search, ⟨[], [], [], [], [], []⟩, []⟩
        (StepOutput.searchOutput "k".data [])
      = ⟨WizardStep.search, ⟨[], [], [], [], [], []⟩, []⟩
    ∧ Step3Review.handleProcess [] "[CONTENT]".data = none :=
  advance_into_review_requires_results _ _ _ rfl

/-- C5 (behaviour at the failing input).  A failing generation call
logs the error (GenerationFailed surfaced), clears the busy flag and
leaves the stored analysis result and the results pane untouched; but
when the Continue handler triggered the generation, the handler still
invokes the forward callback (with the stale captured value), so the
wizard DOES move forward after the failure, against the claim and the
in-source comment that results must exist before proceeding. -/
theorem generation_failure_evaluated :
    Step4Analysis.generateStyleAnalysis (Except.error ())
        ⟨"old".data, true, false, true⟩
      = (⟨"old".data, false, false, true⟩, true)
    ∧ (Step4Analysis.handleProcess (Except.error ()) ⟨[], false, false, false⟩).2
      = some [] :=
  ⟨rfl, rfl⟩

/-- C10.  When no analysis result is stored and no generation is in
flight, the Continue handler runs the generation to completion (the
new state holds the placeholder text and the busy flag is clear) and
passes forward the value captured at the start of the handler: the
empty string, not the freshly generated text. -/
theorem handleProcess_forwards_stale_result (s : Step4Analysis.Step4State)
    (h1 : s.analysisResult = []) (h2 : s.isGenerating = false) :
    (Step4Analysis.handleProcess (Except.ok ()) s).2 = some []
    ∧ ((Step4Analysis.handleProcess (Except.ok ()) s).1).analysisResult
      = Step4Analysis.analysisPlaceholder
    ∧ ((Step4Analysis.handleProcess (Except.ok ()) s).1).isGenerating = false
    ∧ Step4Analysis.analysisPlaceholder ≠ [] := by
  have hc : (s.analysisResult.isEmpty && !s.isGenerating) = true := by
    rw [h1, h2]
    rfl
  refine ⟨?_, ?_, ?_, by decide⟩ <;>
    simp [Step4Analysis.handleProcess, Step4Analysis.generateStyleAnalysis, hc, h1, h2]

/-- Witness for handleProcess_forwards_stale_result at the initial
Step4 state. -/
theorem handleProcess_forwards_stale_result_witness :
    ((⟨[], false, false, false⟩ : Step4Analysis.Step4State).analysisResult = []
      ∧ (⟨[], false, false, false⟩ : Step4Analysis.Step4State).isGenerating = false)
    ∧ ((Step4Analysis.handleProcess (Except.ok ())
          (⟨[], false, false, false⟩ : Step4Analysis.Step4State)).2 = some []
      ∧ ((Step4Analysis.handleProcess (Except.ok ())
          (⟨[], false, false, false⟩ : Step4Analysis.Step4State)).1).analysisResult
        = Step4Analysis.analysisPlaceholder
      ∧ ((Step4Analysis.handleProcess (Except.ok ())
          (⟨[], false, false, false⟩ : Step4Analysis.Step4State)).1).isGenerating = false
      ∧ Step4Analysis.analysisPlaceholder ≠ []) :=
  ⟨⟨rfl, rfl⟩, handleProcess_forwards_stale_result _ rfl rfl⟩
